import Mathlib

/-!
Verification development for the elchi-gslb CoreDNS plugin core: the record
cache and synchronization engine (`cache.go`, `client.go`, `elchi.go`/sync
loop, and the sync-status tracker in `webhook.go`).

The Go code is shallowly embedded: Go strings are Lean `String`s manipulated
through their character lists, Go maps are association lists with Go map
update/delete semantics, `[]dns.RR` is a Lean list of a record datatype, and
fallible functions return `Except String`.  Time stamps and the Prometheus
metric updates carry no information relevant to the verified properties and
are modelled by an explicit `now : Nat` parameter (respectively dropped).
-/

namespace ElchiGslb

/-! ## Go string primitives

Models of the Go standard-library string helpers used by `cache.go`:
`strings.ToLower`, `strings.ToUpper`, `strings.TrimSpace`,
`strings.HasSuffix`.  Case mapping and the white-space class are modelled on
the ASCII range (the domain names and record types handled by the plugin are
ASCII); outside that range the functions are the identity, as in Go. -/

/-- Model of the character case-fold used by `strings.ToLower`
(ASCII range of `unicode.ToLower`). -/
def lowerChar (c : Char) : Char :=
  if 65 ≤ c.toNat ∧ c.toNat ≤ 90 then Char.ofNat (c.toNat + 32) else c

/-- Model of the character case-raise used by `strings.ToUpper`
(ASCII range of `unicode.ToUpper`). -/
def upperChar (c : Char) : Char :=
  if 97 ≤ c.toNat ∧ c.toNat ≤ 122 then Char.ofNat (c.toNat - 32) else c

/-- Model of `unicode.IsSpace` (ASCII white-space class). -/
def isSpaceChar (c : Char) : Bool :=
  c = ' ' || c = '\t' || c = '\n' || c = '\x0b' || c = '\x0c' || c = '\r'

/-- Model of Go `strings.ToLower`. -/
def goToLower (s : String) : String := ⟨s.data.map lowerChar⟩

/-- Model of Go `strings.ToUpper`. -/
def goToUpper (s : String) : String := ⟨s.data.map upperChar⟩

/-- Leading and trailing white space removed from a character list:
the list-level content of Go `strings.TrimSpace`. -/
def trimList (l : List Char) : List Char :=
  List.rdropWhile isSpaceChar (l.dropWhile isSpaceChar)

/-- Model of Go `strings.TrimSpace`. -/
def goTrimSpace (s : String) : String := ⟨trimList s.data⟩

/-- Model of Go `strings.HasSuffix`. -/
def goHasSuffix (s suf : String) : Bool :=
  decide (s.data.length ≥ suf.data.length) &&
    decide (s.data.drop (s.data.length - suf.data.length) = suf.data)

/-- `normalizeDomain` from `cache.go`: lower-case, trim white space and
ensure a trailing dot (FQDN form). -/
def normalizeDomain (domain : String) : String :=
  let normalized := goToLower (goTrimSpace domain)
  if goHasSuffix normalized "." then normalized else normalized ++ "."

/-! ### Facts about the string primitives -/

theorem toNat_ofNat_valid {n : Nat} (h : n < 55296) : (Char.ofNat n).toNat = n := by
  have hv : n.isValidChar := Or.inl h
  simp only [Char.ofNat, hv, dif_pos, Char.ofNatAux, Char.toNat]
  rfl

theorem lowerChar_idem (c : Char) : lowerChar (lowerChar c) = lowerChar c := by
  unfold lowerChar
  by_cases h : 65 ≤ c.toNat ∧ c.toNat ≤ 90
  · rw [if_pos h]
    have h2 : (Char.ofNat (c.toNat + 32)).toNat = c.toNat + 32 :=
      toNat_ofNat_valid (by omega)
    rw [if_neg (by rw [h2]; omega)]
  · rw [if_neg h, if_neg h]

theorem isSpaceChar_eq_false_of_ne (c : Char)
    (h : c.toNat ≠ 32 ∧ c.toNat ≠ 9 ∧ c.toNat ≠ 10 ∧ c.toNat ≠ 11 ∧
      c.toNat ≠ 12 ∧ c.toNat ≠ 13) : isSpaceChar c = false := by
  unfold isSpaceChar
  simp only [Bool.or_eq_false_iff, decide_eq_false_iff_not]
  refine ⟨⟨⟨⟨⟨?_, ?_⟩, ?_⟩, ?_⟩, ?_⟩, ?_⟩ <;> (intro he; subst he; simp_all)

theorem isSpaceChar_lowerChar (c : Char) :
    isSpaceChar (lowerChar c) = isSpaceChar c := by
  unfold lowerChar
  by_cases h : 65 ≤ c.toNat ∧ c.toNat ≤ 90
  · rw [if_pos h]
    have h2 : (Char.ofNat (c.toNat + 32)).toNat = c.toNat + 32 :=
      toNat_ofNat_valid (by omega)
    rw [isSpaceChar_eq_false_of_ne _ (by omega),
      isSpaceChar_eq_false_of_ne _ (by omega)]
  · rw [if_neg h]

theorem head_dropWhile {p : Char → Bool} {l : List Char} {a : Char} {t : List Char}
    (h : l.dropWhile p = a :: t) : p a = false := by
  induction l with
  | nil => simp [List.dropWhile] at h
  | cons b r ih =>
    by_cases hb : p b
    · rw [List.dropWhile_cons_of_pos hb] at h; exact ih h
    · rw [List.dropWhile_cons_of_neg hb] at h; cases h; simpa using hb

theorem trimList_head_not_space {l : List Char} {a : Char} {t : List Char}
    (h : trimList l = a :: t) : isSpaceChar a = false := by
  have hpre := List.rdropWhile_prefix isSpaceChar (l.dropWhile isSpaceChar)
  rw [show List.rdropWhile isSpaceChar (l.dropWhile isSpaceChar) = trimList l from rfl,
    h] at hpre
  obtain ⟨rest, hrest⟩ := hpre
  exact head_dropWhile (p := isSpaceChar) hrest.symm

theorem dropWhile_eq_self_of_head {l : List Char}
    (h : ∀ a t, l = a :: t → isSpaceChar a = false) :
    l.dropWhile isSpaceChar = l := by
  cases l with
  | nil => rfl
  | cons a t => rw [List.dropWhile_cons_of_neg (by simp [h a t rfl])]

theorem isSpaceChar_dot : isSpaceChar '.' = false := by decide

theorem isSpaceChar_comp_lowerChar : isSpaceChar ∘ lowerChar = isSpaceChar :=
  funext isSpaceChar_lowerChar

theorem rdropWhile_map_lower (l : List Char) :
    List.rdropWhile isSpaceChar (List.map lowerChar l)
      = List.map lowerChar (List.rdropWhile isSpaceChar l) := by
  unfold List.rdropWhile
  rw [← List.map_reverse, List.dropWhile_map, isSpaceChar_comp_lowerChar,
    ← List.map_reverse]

theorem trimList_map_comm (l : List Char) :
    trimList (List.map lowerChar l) = List.map lowerChar (trimList l) := by
  unfold trimList
  rw [List.dropWhile_map, isSpaceChar_comp_lowerChar, rdropWhile_map_lower]

theorem dropWhile_trimList (l : List Char) :
    (trimList l).dropWhile isSpaceChar = trimList l := by
  apply dropWhile_eq_self_of_head
  intro a t h
  exact trimList_head_not_space h

theorem trimList_idem (l : List Char) : trimList (trimList l) = trimList l := by
  show List.rdropWhile isSpaceChar ((trimList l).dropWhile isSpaceChar) = trimList l
  rw [dropWhile_trimList]
  show List.rdropWhile isSpaceChar
    (List.rdropWhile isSpaceChar (l.dropWhile isSpaceChar)) = trimList l
  rw [List.rdropWhile_idempotent]
  rfl

/-- The bare (dot-free) form of the trim-stability fact. -/
theorem trimList_map_lower (l : List Char) :
    trimList (List.map lowerChar (trimList l)) = List.map lowerChar (trimList l) := by
  rw [trimList_map_comm, trimList_idem]

/-- The `strings.ToLower` output of a trimmed string, with a trailing dot
appended, is again trimmed. -/
theorem trimList_lower_trim_dot (l : List Char) :
    trimList (List.map lowerChar (trimList l) ++ ['.'])
      = List.map lowerChar (trimList l) ++ ['.'] := by
  have hfront : (List.map lowerChar (trimList l) ++ ['.']).dropWhile isSpaceChar
      = List.map lowerChar (trimList l) ++ ['.'] := by
    apply dropWhile_eq_self_of_head
    intro a t h
    cases hl : trimList l with
    | nil =>
      rw [hl] at h
      simp only [List.map_nil, List.nil_append] at h
      cases h
      exact isSpaceChar_dot
    | cons c0 r0 =>
      rw [hl] at h
      simp only [List.map_cons, List.cons_append, List.cons.injEq] at h
      rw [← h.1, isSpaceChar_lowerChar]
      exact trimList_head_not_space hl
  show List.rdropWhile isSpaceChar
      ((List.map lowerChar (trimList l) ++ ['.']).dropWhile isSpaceChar)
      = List.map lowerChar (trimList l) ++ ['.']
  rw [hfront]
  exact List.rdropWhile_concat_neg _ _ _ (by simp [isSpaceChar_dot])

/-- Decomposition of a string known to end in a dot. -/
theorem eq_append_dot_of_goHasSuffix {s : String} (h : goHasSuffix s "." = true) :
    ∃ x, s.data = x ++ ['.'] := by
  unfold goHasSuffix at h
  have hd : ("." : String).data = ['.'] := rfl
  simp only [hd, Bool.and_eq_true, decide_eq_true_eq, ge_iff_le,
    List.length_cons, List.length_nil] at h
  refine ⟨s.data.take (s.data.length - 1), ?_⟩
  conv_lhs => rw [← List.take_append_drop (s.data.length - 1) s.data]
  rw [h.2]

theorem goToLower_idem (s : String) : goToLower (goToLower s) = goToLower s := by
  unfold goToLower
  simp only [List.map_map]
  congr 1
  exact List.map_congr_left fun c _ => lowerChar_idem c

theorem mkStr_eq {l : List Char} {s : String} (h : l = s.data) : (⟨l⟩ : String) = s := by
  cases s with
  | mk d => cases h; rfl

theorem data_append (s t : String) : (s ++ t).data = s.data ++ t.data := rfl

theorem dot_data : ("." : String).data = ['.'] := rfl

theorem goHasSuffix_dot {s : String} {x : List Char} (h : s.data = x ++ ['.']) :
    goHasSuffix s "." = true := by
  unfold goHasSuffix
  simp only [dot_data, h, Bool.and_eq_true, decide_eq_true_eq, ge_iff_le,
    List.length_append, List.length_cons, List.length_nil]
  constructor
  · omega
  · have he : x.length + (0 + 1) - 1 = x.length := by omega
    rw [he, List.drop_left]

/-- `normalizeDomain` is idempotent: the write path and the read path of the
cache key space agree on already-normalized names. -/
theorem normalizeDomain_idem (s : String) :
    normalizeDomain (normalizeDomain s) = normalizeDomain s := by
  have hdata : (goToLower (goTrimSpace s)).data
      = List.map lowerChar (trimList s.data) := rfl
  unfold normalizeDomain
  by_cases h : goHasSuffix (goToLower (goTrimSpace s)) "." = true
  · rw [if_pos h]
    set t := goToLower (goTrimSpace s) with ht
    have htrim : goTrimSpace t = t := mkStr_eq (by
      rw [hdata]
      exact trimList_map_lower s.data)
    have hlow : goToLower t = t := by rw [ht]; exact goToLower_idem _
    rw [htrim, hlow, if_pos h]
  · rw [if_neg h]
    set t := goToLower (goTrimSpace s) with ht
    have hudata : (t ++ ".").data = List.map lowerChar (trimList s.data) ++ ['.'] := by
      rw [data_append, dot_data, hdata]
    have htrim : goTrimSpace (t ++ ".") = t ++ "." := mkStr_eq (by
      show ElchiGslb.trimList (t ++ ".").data = (t ++ ".").data
      rw [hudata]
      exact trimList_lower_trim_dot s.data)
    have hlow : goToLower (t ++ ".") = t ++ "." := mkStr_eq (by
      show List.map lowerChar (t ++ ".").data = (t ++ ".").data
      rw [hudata, List.map_append, List.map_map]
      have h1 : List.map (lowerChar ∘ lowerChar) (trimList s.data)
          = List.map lowerChar (trimList s.data) :=
        List.map_congr_left fun c _ => lowerChar_idem c
      rw [h1, show List.map lowerChar ['.'] = ['.'] from by decide])
    rw [htrim, hlow, if_pos (goHasSuffix_dot hudata)]


instance {e a : Type} [DecidableEq e] [DecidableEq a] : DecidableEq (Except e a) := fun x y =>
  match x, y with
  | .ok v, .ok w =>
    if h : v = w then isTrue (by rw [h]) else isFalse (by intro he; cases he; exact h rfl)
  | .error v, .error w =>
    if h : v = w then isTrue (by rw [h]) else isFalse (by intro he; cases he; exact h rfl)
  | .ok _, .error _ => isFalse (by intro he; cases he)
  | .error _, .ok _ => isFalse (by intro he; cases he)

/-! ## IP address parsing

Model of the `net.ParseIP` / `net.IP.To4` behaviour used by
`buildDNSRecords`.  IPv4 parsing follows Go's strict dotted-quad rules
(1-3 decimal digits per field, value at most 255, no leading zeros).  IPv6
parsing is a simplified model of Go's grammar (hex groups separated by
colons, at most one `::` compression; the rarely-used trailing
dotted-quad form is not modelled).  None of the verified properties
depends on the fine structure of IPv6 parsing. -/

/-- An IP address: either four IPv4 octets or the eight 16-bit IPv6 groups. -/
inductive IPAddr where
  | v4 (a b c d : Nat)
  | v6 (groups : List Nat)
deriving DecidableEq, Repr

def isDigitChar (c : Char) : Bool := 48 ≤ c.toNat && c.toNat ≤ 57

def isHexChar (c : Char) : Bool :=
  isDigitChar c || (97 ≤ c.toNat && c.toNat ≤ 102) || (65 ≤ c.toNat && c.toNat ≤ 70)

def digitVal (c : Char) : Nat := c.toNat - 48

def hexVal (c : Char) : Nat :=
  if isDigitChar c then c.toNat - 48
  else if 97 ≤ c.toNat && c.toNat ≤ 102 then c.toNat - 87
  else c.toNat - 55

/-- One dotted-quad field of an IPv4 address. -/
def parseV4Field (f : List Char) : Option Nat :=
  if f = [] then none
  else if ¬ f.all isDigitChar then none
  else if f.length > 3 then none
  else if f.length > 1 ∧ f.headD '0' = '0' then none
  else
    let v := f.foldl (fun acc c => acc * 10 + digitVal c) 0
    if v ≤ 255 then some v else none

def parseIPv4 (l : List Char) : Option IPAddr :=
  match (l.splitOn '.').mapM parseV4Field with
  | some [a, b, c, d] => some (.v4 a b c d)
  | _ => none

/-- One hex group of an IPv6 address. -/
def parseV6Group (f : List Char) : Option Nat :=
  if f = [] then none
  else if ¬ f.all isHexChar then none
  else if f.length > 4 then none
  else some (f.foldl (fun acc c => acc * 16 + hexVal c) 0)

/-- Split a character list at the first occurrence of a double colon. -/
def splitOnDoubleColon : List Char → Option (List Char × List Char)
  | [] => none
  | [_] => none
  | ':' :: ':' :: rest => some ([], rest)
  | c :: rest => (splitOnDoubleColon rest).map fun p => (c :: p.1, p.2)

def parseIPv6 (l : List Char) : Option IPAddr :=
  match splitOnDoubleColon l with
  | none =>
    match (l.splitOn ':').mapM parseV6Group with
    | some gs => if gs.length = 8 then some (.v6 gs) else none
    | none => none
  | some (pre, post) =>
    if splitOnDoubleColon pre ≠ none ∨ splitOnDoubleColon post ≠ none then none
    else
      let preGroups := if pre = [] then some [] else (pre.splitOn ':').mapM parseV6Group
      let postGroups := if post = [] then some [] else (post.splitOn ':').mapM parseV6Group
      match preGroups, postGroups with
      | some g1, some g2 =>
        if g1.length + g2.length < 8 then
          some (.v6 (g1 ++ List.replicate (8 - g1.length - g2.length) 0 ++ g2))
        else none
      | _, _ => none

/-- Model of `net.ParseIP`: the first special character decides between the
IPv4 and the IPv6 grammar. -/
def parseIP (s : String) : Option IPAddr :=
  match s.data.find? (fun c => c = '.' || c = ':') with
  | some '.' => parseIPv4 s.data
  | some ':' => parseIPv6 s.data
  | _ => none

/-- Model of `net.IP.To4`: a 4-byte address, or a v4-mapped 16-byte address,
as four octets; `none` otherwise. -/
def to4 : IPAddr → Option (Nat × Nat × Nat × Nat)
  | .v4 a b c d => some (a, b, c, d)
  | .v6 gs =>
    match gs with
    | [0, 0, 0, 0, 0, g6, g7, g8] =>
      if g6 = 65535 then some (g7 / 256, g7 % 256, g8 / 256, g8 % 256) else none
    | _ => none

/-! ## DNS data model

Counterparts of the types in `client.go` and of the `miekg/dns` resource
records the plugin constructs (`dns.A`, `dns.AAAA`, `dns.CNAME`, each with
its `dns.RR_Header`). -/

/-- `dns.TypeA`. -/
def typeA : Nat := 1
/-- `dns.TypeCNAME`. -/
def typeCNAME : Nat := 5
/-- `dns.TypeAAAA`. -/
def typeAAAA : Nat := 28
/-- `dns.ClassINET`. -/
def classINET : Nat := 1

/-- The type-specific payload of a resource record. -/
inductive RData where
  | a (ip : Nat × Nat × Nat × Nat)
  | aaaa (ip : IPAddr)
  | cname (target : String)
deriving DecidableEq, Repr

/-- A pre-built resource record: the `dns.RR_Header` fields plus payload. -/
structure RR where
  name : String
  rrtype : Nat
  rrclass : Nat
  ttl : Nat
  rdata : RData
deriving DecidableEq, Repr

/-- `DNSRecord` from `client.go` (the generation `cache.go` compiles
against, with the `Enabled` flag).  The Go field `Type` is `rtype` here. -/
structure DNSRecord where
  name : String
  rtype : String
  ttl : Nat
  ips : List String
  enabled : Bool
  failover : String
deriving DecidableEq, Repr

/-- `DNSSnapshot` from `client.go`. -/
structure DNSSnapshot where
  zone : String
  versionHash : String
  records : List DNSRecord
deriving DecidableEq, Repr

/-- `DNSChangesResponse` from `client.go`. -/
structure DNSChangesResponse where
  unchanged : Bool
  zone : String
  versionHash : String
  records : List DNSRecord
deriving DecidableEq, Repr

/-- `DeleteRecord` from `cache.go`.  The Go field `Type` is `rtype` here. -/
structure DeleteRecord where
  name : String
  rtype : String
deriving DecidableEq, Repr

/-- Shared tail of the A/AAAA branches of `buildDNSRecords`: Go's
`if len(rrs) == 0 { return nil, error }` check after the switch. -/
def finishAddrRecords (rrs : List RR) (recordName : String) : Except String (List RR) :=
  if rrs = [] then .error ("no valid IPs found for record " ++ recordName)
  else .ok rrs

/-- `buildDNSRecords` from `cache.go`: converts a backend record into the
pre-built resource records, with CNAME failover for disabled records. -/
def buildDNSRecords (record : DNSRecord) (defaultTTL : Nat) : Except String (List RR) :=
  let name := normalizeDomain record.name
  let ttl := if record.ttl = 0 then defaultTTL else record.ttl
  if record.enabled = false then
    if record.failover = "" then
      .error ("record " ++ record.name ++ " is disabled but failover is empty")
    else
      .ok [{ name := name, rrtype := typeCNAME, rrclass := classINET, ttl := ttl,
             rdata := .cname (normalizeDomain record.failover) }]
  else
    let recordType := goToUpper record.rtype
    if recordType = "A" then
      finishAddrRecords
        (record.ips.filterMap fun ipStr =>
          (parseIP ipStr).bind fun ip =>
            (to4 ip).map fun ip4 =>
              { name := name, rrtype := typeA, rrclass := classINET,
                ttl := ttl, rdata := .a ip4 })
        record.name
    else if recordType = "AAAA" then
      finishAddrRecords
        (record.ips.filterMap fun ipStr =>
          (parseIP ipStr).bind fun ip =>
            if to4 ip = none then
              some { name := name, rrtype := typeAAAA, rrclass := classINET,
                     ttl := ttl, rdata := .aaaa ip }
            else none)
        record.name
    else
      .error ("unsupported record type: " ++ record.rtype)

/-! ## Go maps as association lists

`map[string]map[uint16][]dns.RR` is embedded as an association list of
association lists; `alGet`/`alSet`/`alDel` have Go map lookup, assignment
and `delete` semantics. -/

def alGet {K V : Type} [DecidableEq K] : List (K × V) → K → Option V
  | [], _ => none
  | p :: rest, k => if p.1 = k then some p.2 else alGet rest k

def alSet {K V : Type} [DecidableEq K] : List (K × V) → K → V → List (K × V)
  | [], k, v => [(k, v)]
  | p :: rest, k, v => if p.1 = k then (k, v) :: rest else p :: alSet rest k v

def alDel {K V : Type} [DecidableEq K] : List (K × V) → K → List (K × V)
  | [], _ => []
  | p :: rest, k => if p.1 = k then alDel rest k else p :: alDel rest k

/-- `map[uint16][]dns.RR`. -/
abbrev QtypeMap := List (Nat × List RR)

/-- `map[string]map[uint16][]dns.RR`. -/
abbrev DomainMap := List (String × QtypeMap)

/-! ## The record cache (`cache.go`) -/

/-- `RecordCache` (the mutex and the `updatedAt` time stamp carry no
information for the verified properties and are dropped). -/
structure RecordCache where
  zone : String
  versionHash : String
  records : DomainMap
deriving DecidableEq, Repr

/-- `NewRecordCache` from `cache.go`. -/
def NewRecordCache (zone : String) : RecordCache :=
  { zone := zone, versionHash := "", records := [] }

/-- The per-record body of the loop in `ReplaceFromSnapshot`: skip
out-of-zone and failed builds, then append the built records to the
`domain`/`qtype` bucket of the fresh map. -/
def snapshotStep (zone : String) (defaultTTL : Nat) (acc : DomainMap)
    (record : DNSRecord) : DomainMap :=
  let domain := normalizeDomain record.name
  if ¬ (goHasSuffix domain zone = true) ∧ domain ≠ zone then acc
  else
    match buildDNSRecords record defaultTTL with
    | .error _ => acc
    | .ok rrs =>
      match rrs with
      | [] => acc
      | rr0 :: _ =>
        let qmap := (alGet acc domain).getD []
        alSet acc domain (alSet qmap rr0.rrtype (((alGet qmap rr0.rrtype).getD []) ++ rrs))

/-- `RecordCache.ReplaceFromSnapshot` from `cache.go`. -/
def RecordCache.ReplaceFromSnapshot (c : RecordCache) (snapshot : Option DNSSnapshot)
    (defaultTTL : Nat) : Except String RecordCache :=
  match snapshot with
  | none => .error "snapshot is nil"
  | some snap =>
    .ok { c with records := snap.records.foldl (snapshotStep c.zone defaultTTL) [],
                 versionHash := snap.versionHash }

/-- `RecordCache.Get` from `cache.go` (the defensive slice copy is the
identity in a functional model; Go's `nil` result is the empty list). -/
def RecordCache.Get (c : RecordCache) (qname : String) (qtype : Nat) : List RR :=
  match alGet c.records (normalizeDomain qname) with
  | none => []
  | some qmap =>
    match alGet qmap qtype with
    | none => []
    | some rrs => rrs

/-- `RecordCache.GetVersionHash` from `cache.go`. -/
def RecordCache.GetVersionHash (c : RecordCache) : String := c.versionHash

/-- `RecordCache.Count` from `cache.go`. -/
def RecordCache.Count (c : RecordCache) : Nat := c.records.length

/-- The per-record body of the loop in `RecordCache.Update`: skip
out-of-zone and failed builds, then **replace** the `domain`/`qtype`
bucket with the built records. -/
def updateStep (zone : String) (defaultTTL : Nat) (acc : DomainMap)
    (record : DNSRecord) : DomainMap :=
  let domain := normalizeDomain record.name
  if ¬ (goHasSuffix domain zone = true) ∧ domain ≠ zone then acc
  else
    match buildDNSRecords record defaultTTL with
    | .error _ => acc
    | .ok rrs =>
      match rrs with
      | [] => acc
      | rr0 :: _ =>
        let qmap := (alGet acc domain).getD []
        alSet acc domain (alSet qmap rr0.rrtype rrs)

/-- `RecordCache.Update` from `cache.go` (webhook merge path). -/
def RecordCache.Update (c : RecordCache) (records : List DNSRecord)
    (defaultTTL : Nat) : Except String RecordCache :=
  if records = [] then .ok c
  else .ok { c with records := records.foldl (updateStep c.zone defaultTTL) c.records }

/-- The `switch strings.ToUpper(del.Type)` in `RecordCache.Delete`. -/
def parseDeleteType (t : String) : Option Nat :=
  if goToUpper t = "A" then some typeA
  else if goToUpper t = "AAAA" then some typeAAAA
  else none

/-- The per-record body of the loop in `RecordCache.Delete`. -/
def deleteStep (acc : DomainMap) (del : DeleteRecord) : DomainMap :=
  let domain := normalizeDomain del.name
  match parseDeleteType del.rtype with
  | none => acc
  | some qtype =>
    match alGet acc domain with
    | none => acc
    | some qmap =>
      let qmap2 := alDel qmap qtype
      if qmap2 = [] then alDel acc domain else alSet acc domain qmap2

/-- `RecordCache.Delete` from `cache.go` (webhook delete path). -/
def RecordCache.Delete (c : RecordCache) (deletes : List DeleteRecord) :
    Except String RecordCache :=
  if deletes = [] then .ok c
  else .ok { c with records := deletes.foldl deleteStep c.records }

/-! ## The query path (`ServeDNS`, `elchi.go`) -/

/-- Outcome of the cache consultation in `ServeDNS`: an authoritative
answer, an authoritative miss (NXDOMAIN / fallthrough), or delegation to
the next plugin for unsupported query types. -/
inductive ResolveResult where
  | hit (rrs : List RR)
  | miss
  | delegate
deriving DecidableEq, Repr

/-- The cache-consultation logic of `ServeDNS` (`elchi.go`): for A/AAAA
queries a CNAME bucket takes precedence (failover); explicit CNAME queries
look up the CNAME bucket; other types are delegated. -/
def resolveQuery (cache : RecordCache) (qname : String) (qtype : Nat) : ResolveResult :=
  if qtype = typeA ∨ qtype = typeAAAA then
    let cnameRRs := cache.Get qname typeCNAME
    let rrs := if cnameRRs.length > 0 then cnameRRs else cache.Get qname qtype
    if rrs = [] then .miss else .hit rrs
  else if qtype = typeCNAME then
    let rrs := cache.Get qname typeCNAME
    if rrs = [] then .miss else .hit rrs
  else .delegate

/-! ## Sync status and the sync loop (`webhook.go`, `elchi.go`) -/

/-- The error text carried by a Go `error` value (`""` for `nil`). -/
def errText : Option String → String
  | some e => e
  | none => ""

/-- `SyncStatus` from `webhook.go` (mutex dropped, time is a `Nat`). -/
structure SyncStatus where
  lastSyncTime : Nat
  lastSyncStatus : String
  lastError : String
deriving DecidableEq, Repr

/-- `SyncStatus.Update` from `webhook.go`: overwrite all three fields;
the error field is set from `err` when non-nil and cleared otherwise. -/
def SyncStatus.update (_s : SyncStatus) (now : Nat) (status : String)
    (err : Option String) : SyncStatus :=
  { lastSyncTime := now, lastSyncStatus := status, lastError := errText err }

/-- The plugin state touched by a sync tick. -/
structure ElchiState where
  cache : RecordCache
  syncStatus : SyncStatus
deriving DecidableEq, Repr

/-- `performSync` from `elchi.go`.  The backend interaction is supplied as
the two possible call results (`FetchSnapshot` when no snapshot is loaded
yet, `CheckChanges` otherwise); `now` stands for `time.Now()`.  Metrics and
logging are dropped. -/
def performSync (e : ElchiState) (defaultTTL now : Nat)
    (fetchResult : Except String DNSSnapshot)
    (changesResult : Except String DNSChangesResponse) : ElchiState :=
  let currentHash := e.cache.GetVersionHash
  if currentHash = "" then
    match fetchResult with
    | .error err => { e with syncStatus := e.syncStatus.update now "failed" (some err) }
    | .ok snapshot =>
      match e.cache.ReplaceFromSnapshot (some snapshot) defaultTTL with
      | .error err => { e with syncStatus := e.syncStatus.update now "failed" (some err) }
      | .ok c2 => { cache := c2, syncStatus := e.syncStatus.update now "success" none }
  else
    match changesResult with
    | .error err => { e with syncStatus := e.syncStatus.update now "failed" (some err) }
    | .ok changes =>
      if changes.unchanged then
        { e with syncStatus := e.syncStatus.update now "success" none }
      else
        match e.cache.ReplaceFromSnapshot
            (some { zone := changes.zone, versionHash := changes.versionHash,
                    records := changes.records }) defaultTTL with
        | .error err => { e with syncStatus := e.syncStatus.update now "failed" (some err) }
        | .ok c2 => { cache := c2, syncStatus := e.syncStatus.update now "success" none }


/-! ## Association-list facts -/

section AssocFacts

variable {K V : Type} [DecidableEq K]

theorem alGet_alSet_self (l : List (K × V)) (k : K) (v : V) :
    alGet (alSet l k v) k = some v := by
  induction l with
  | nil => simp [alSet, alGet]
  | cons p rest ih =>
    obtain ⟨a, b⟩ := p
    by_cases h : a = k
    · simp [alSet, alGet, h]
    · simp [alSet, alGet, h, ih]

theorem alGet_alSet_ne (l : List (K × V)) (k k2 : K) (v : V) (h : k2 ≠ k) :
    alGet (alSet l k v) k2 = alGet l k2 := by
  induction l with
  | nil => simp [alSet, alGet, h.symm]
  | cons p rest ih =>
    obtain ⟨a, b⟩ := p
    by_cases hp : a = k
    · simp [alSet, alGet, hp, h.symm]
    · by_cases hp2 : a = k2
      · simp [alSet, alGet, hp, hp2, h]
      · simp [alSet, alGet, hp, hp2, ih]

theorem alGet_alDel_self (l : List (K × V)) (k : K) :
    alGet (alDel l k) k = none := by
  induction l with
  | nil => simp [alDel, alGet]
  | cons p rest ih =>
    obtain ⟨a, b⟩ := p
    by_cases h : a = k
    · simp [alDel, h, ih]
    · simp [alDel, alGet, h, ih]

theorem alGet_alDel_ne (l : List (K × V)) (k k2 : K) (h : k2 ≠ k) :
    alGet (alDel l k) k2 = alGet l k2 := by
  induction l with
  | nil => simp [alDel]
  | cons p rest ih =>
    obtain ⟨a, b⟩ := p
    by_cases hp : a = k
    · simp [alDel, alGet, hp, h.symm, ih]
    · by_cases hp2 : a = k2
      · simp [alDel, alGet, hp, hp2, h]
      · simp [alDel, alGet, hp, hp2, ih]

theorem alDel_of_get_none (l : List (K × V)) (k : K) (h : alGet l k = none) :
    alDel l k = l := by
  induction l with
  | nil => rfl
  | cons p rest ih =>
    obtain ⟨a, b⟩ := p
    by_cases hp : a = k
    · simp [alGet, hp] at h
    · simp only [alGet, hp, if_false] at h
      simp [alDel, hp, ih h]

theorem alSet_of_get_self (l : List (K × V)) (k : K) (v : V) (h : alGet l k = some v) :
    alSet l k v = l := by
  induction l with
  | nil => cases h
  | cons p rest ih =>
    obtain ⟨a, b⟩ := p
    by_cases hp : a = k
    · simp only [alGet, hp, if_true, if_pos, Option.some.injEq] at h
      simp [alSet, hp, h]
    · simp only [alGet, hp, if_false] at h
      simp [alSet, hp, ih h]

theorem mem_alSet {l : List (K × V)} {k : K} {v : V} {p : K × V}
    (h : p ∈ alSet l k v) : p = (k, v) ∨ p ∈ l := by
  induction l with
  | nil => simp [alSet] at h; exact Or.inl h
  | cons q rest ih =>
    obtain ⟨a, b⟩ := q
    by_cases hq : a = k
    · rw [alSet, if_pos hq] at h
      rcases List.mem_cons.mp h with h1 | h1
      · exact Or.inl h1
      · exact Or.inr (List.mem_cons_of_mem _ h1)
    · rw [alSet, if_neg hq] at h
      rcases List.mem_cons.mp h with h1 | h1
      · exact Or.inr (h1 ▸ List.mem_cons_self _ _)
      · rcases ih h1 with h2 | h2
        · exact Or.inl h2
        · exact Or.inr (List.mem_cons_of_mem _ h2)

theorem mem_alDel {l : List (K × V)} {k : K} {p : K × V}
    (h : p ∈ alDel l k) : p ∈ l := by
  induction l with
  | nil => simp [alDel] at h
  | cons q rest ih =>
    obtain ⟨a, b⟩ := q
    by_cases hq : a = k
    · rw [alDel, if_pos hq] at h
      exact List.mem_cons_of_mem _ (ih h)
    · rw [alDel, if_neg hq] at h
      rcases List.mem_cons.mp h with h1 | h1
      · exact h1 ▸ List.mem_cons_self _ _
      · exact List.mem_cons_of_mem _ (ih h1)

theorem alGet_mem {l : List (K × V)} {k : K} {v : V}
    (h : alGet l k = some v) : (k, v) ∈ l := by
  induction l with
  | nil => cases h
  | cons p rest ih =>
    obtain ⟨a, b⟩ := p
    by_cases hp : a = k
    · simp only [alGet, hp, if_true, if_pos, Option.some.injEq] at h
      exact hp ▸ h ▸ List.mem_cons_self _ _
    · simp only [alGet, hp, if_false] at h
      exact List.mem_cons_of_mem _ (ih h)

end AssocFacts


/-! ## Shared facts about `buildDNSRecords` -/

theorem finishAddrRecords_ok {L : List RR} {n : String} {rrs : List RR}
    (h : finishAddrRecords L n = .ok rrs) : rrs = L ∧ L ≠ [] := by
  unfold finishAddrRecords at h
  by_cases hL : L = []
  · rw [if_pos hL] at h; cases h
  · rw [if_neg hL] at h
    injection h with h2
    exact ⟨h2.symm, hL⟩

/-! ## Claims -/

/-- Claim C10: lookup is insensitive to the lexical form of the query name:
`Get qname qtype` equals `Get` applied to the lower-cased, trimmed,
trailing-dot (normalized) form of `qname`, because both the write path and
the read path pass names through `normalizeDomain`, which is idempotent. -/
theorem claimC10_get_normalization_insensitive (c : RecordCache) (qname : String)
    (qtype : Nat) : c.Get qname qtype = c.Get (normalizeDomain qname) qtype := by
  unfold RecordCache.Get
  rw [normalizeDomain_idem]

/-- Claim C8, counterexample: `SyncStatus.update` decides the error field on
the `err` argument alone, not on the status string: a call with status
`"success"` and a non-nil error leaves a non-empty `lastError` even though
the new status is not `"failed"`. -/
theorem claimC8_counterexample :
    ((SyncStatus.mk 0 "initial" "").update 5 "success" (some "boom")).lastSyncStatus
        ≠ "failed"
    ∧ ((SyncStatus.mk 0 "initial" "").update 5 "success" (some "boom")).lastError
        ≠ "" := by
  constructor
  · decide
  · decide

/-- Claim C8, amended: every call of `SyncStatus.update` overwrites all
three fields together, independently of the prior state; `lastError` is set
to the message of the error argument and is the empty string exactly when
the error argument is nil.  (At every call site in the repository a non-nil
error is passed only together with status `"failed"`.) -/
theorem claimC8_amended (s1 s2 : SyncStatus) (now : Nat) (status : String)
    (err : Option String) :
    s1.update now status err = s2.update now status err
    ∧ (s1.update now status err).lastSyncTime = now
    ∧ (s1.update now status err).lastSyncStatus = status
    ∧ (s1.update now status err).lastError = errText err
    ∧ (s1.update now status none).lastError = "" :=
  ⟨rfl, rfl, rfl, rfl, rfl⟩

/-- Claim C9: every record emitted by a successful `buildDNSRecords` call
carries the effective TTL: the record's own TTL when nonzero, the default
TTL when the record's TTL is zero. -/
theorem claimC9_build_ttl (record : DNSRecord) (defaultTTL : Nat) (rrs : List RR)
    (h : buildDNSRecords record defaultTTL = .ok rrs) :
    ∀ rr ∈ rrs, rr.ttl = if record.ttl = 0 then defaultTTL else record.ttl := by
  intro rr hmem
  unfold buildDNSRecords at h
  by_cases he : record.enabled = false
  · rw [if_pos he] at h
    by_cases hf : record.failover = ""
    · rw [if_pos hf] at h; cases h
    · rw [if_neg hf] at h
      injection h with h2
      subst h2
      simp only [List.mem_singleton] at hmem
      subst hmem
      rfl
  · rw [if_neg he] at h
    by_cases hA : goToUpper record.rtype = "A"
    · rw [if_pos hA] at h
      obtain ⟨h2, -⟩ := finishAddrRecords_ok h
      subst h2
      obtain ⟨a, ha, hfa⟩ := List.mem_filterMap.mp hmem
      cases hip : parseIP a with
      | none => rw [hip] at hfa; exact Option.noConfusion hfa
      | some ip =>
        rw [hip] at hfa
        simp only [Option.some_bind] at hfa
        cases h4 : to4 ip with
        | none => rw [h4] at hfa; exact Option.noConfusion hfa
        | some ip4 =>
          rw [h4] at hfa
          simp only [Option.map_some', Option.some.injEq] at hfa
          rw [← hfa]
    · rw [if_neg hA] at h
      by_cases hAAAA : goToUpper record.rtype = "AAAA"
      · rw [if_pos hAAAA] at h
        obtain ⟨h2, -⟩ := finishAddrRecords_ok h
        subst h2
        obtain ⟨a, ha, hfa⟩ := List.mem_filterMap.mp hmem
        cases hip : parseIP a with
        | none => rw [hip] at hfa; exact Option.noConfusion hfa
        | some ip =>
          rw [hip] at hfa
          simp only [Option.some_bind] at hfa
          cases h4 : to4 ip with
          | some ip4 => rw [h4] at hfa; simp at hfa
          | none =>
            rw [h4] at hfa
            simp only [if_pos, Option.some.injEq] at hfa
            rw [← hfa]
      · rw [if_neg hAAAA] at h
        cases h

/-- Input for the C9 witness: record TTL 0 (use the default). -/
def c9record0 : DNSRecord :=
  { name := "a.gslb.elchi", rtype := "A", ttl := 0,
    ips := ["1.2.3.4"], enabled := true, failover := "" }

/-- Input for the C9 witness: record TTL 45 (override the default). -/
def c9record45 : DNSRecord :=
  { name := "a.gslb.elchi", rtype := "A", ttl := 45,
    ips := ["1.2.3.4"], enabled := true, failover := "" }

/-- Records built from `c9record0` with default TTL 300. -/
def c9rrs0 : List RR :=
  [{ name := "a.gslb.elchi.", rrtype := 1, rrclass := 1, ttl := 300,
     rdata := .a (1, 2, 3, 4) }]

/-- Records built from `c9record45` with default TTL 300. -/
def c9rrs45 : List RR :=
  [{ name := "a.gslb.elchi.", rrtype := 1, rrclass := 1, ttl := 45,
     rdata := .a (1, 2, 3, 4) }]

/-- Claim C9, witness: with default TTL 300, a record with TTL 0 builds to
records with TTL 300, and a record with TTL 45 to records with TTL 45. -/
theorem claimC9_build_ttl_witness :
    (buildDNSRecords c9record0 300 = .ok c9rrs0
      ∧ ∀ rr ∈ c9rrs0, rr.ttl = 300)
    ∧ (buildDNSRecords c9record45 300 = .ok c9rrs45
      ∧ ∀ rr ∈ c9rrs45, rr.ttl = 45) := by
  refine ⟨⟨by decide, ?_⟩, ⟨by decide, ?_⟩⟩
  · intro rr hm
    rw [claimC9_build_ttl c9record0 300 c9rrs0 (by decide) rr hm]
    decide
  · intro rr hm
    rw [claimC9_build_ttl c9record45 300 c9rrs45 (by decide) rr hm]
    decide

/-- Claim C3 (code side): for an enabled record with an empty IP list and
empty failover, `buildDNSRecords` does NOT return an empty list without
error; it returns an error (`no valid IPs found` for type A/AAAA,
`unsupported record type` otherwise).  The repository's own tests
(`TestBuildDNSRecords_EmptyIPs_NoFailover`) and the spec expect the
record to be dropped without an error. -/
theorem claimC3_build_enabled_emptyIPs_noFailover_errors
    (record : DNSRecord) (defaultTTL : Nat)
    (he : record.enabled = true) (hi : record.ips = [])
    (_hf : record.failover = "") :
    ∃ e, buildDNSRecords record defaultTTL = .error e := by
  clear _hf
  by_cases hA : goToUpper record.rtype = "A"
  · refine ⟨"no valid IPs found for record " ++ record.name, ?_⟩
    unfold buildDNSRecords
    rw [if_neg (by rw [he]; exact fun hcon => Bool.noConfusion hcon), if_pos hA, hi]
    rfl
  · by_cases hAAAA : goToUpper record.rtype = "AAAA"
    · refine ⟨"no valid IPs found for record " ++ record.name, ?_⟩
      unfold buildDNSRecords
      rw [if_neg (by rw [he]; exact fun hcon => Bool.noConfusion hcon), if_neg hA,
        if_pos hAAAA, hi]
      rfl
    · refine ⟨"unsupported record type: " ++ record.rtype, ?_⟩
      unfold buildDNSRecords
      rw [if_neg (by rw [he]; exact fun hcon => Bool.noConfusion hcon), if_neg hA,
        if_neg hAAAA]

/-- The concrete input of claim C3. -/
def c3record : DNSRecord :=
  { name := "x.gslb.elchi", rtype := "A", ttl := 30, ips := [],
    enabled := true, failover := "" }

/-- Claim C3, witness: the concrete failing input from the claim. -/
theorem claimC3_witness :
    ∃ e, buildDNSRecords c3record 300 = .error e :=
  claimC3_build_enabled_emptyIPs_noFailover_errors c3record 300 rfl rfl rfl

/-- Claim C4 (code side): for an enabled record with an empty IP list and a
non-empty failover target, `buildDNSRecords` does NOT emit the failover
CNAME; it returns an error exactly as without the failover target, because
the CNAME branch is only reached for disabled records.  The repository's
own tests (`TestBuildDNSRecords_CNAME_EmptyIPs`) and the spec expect a
single CNAME to the failover target. -/
theorem claimC4_build_enabled_emptyIPs_failover_errors
    (record : DNSRecord) (defaultTTL : Nat)
    (he : record.enabled = true) (hi : record.ips = [])
    (_hf : record.failover ≠ "") :
    ∃ e, buildDNSRecords record defaultTTL = .error e := by
  clear _hf
  by_cases hA : goToUpper record.rtype = "A"
  · refine ⟨"no valid IPs found for record " ++ record.name, ?_⟩
    unfold buildDNSRecords
    rw [if_neg (by rw [he]; exact fun hcon => Bool.noConfusion hcon), if_pos hA, hi]
    rfl
  · by_cases hAAAA : goToUpper record.rtype = "AAAA"
    · refine ⟨"no valid IPs found for record " ++ record.name, ?_⟩
      unfold buildDNSRecords
      rw [if_neg (by rw [he]; exact fun hcon => Bool.noConfusion hcon), if_neg hA,
        if_pos hAAAA, hi]
      rfl
    · refine ⟨"unsupported record type: " ++ record.rtype, ?_⟩
      unfold buildDNSRecords
      rw [if_neg (by rw [he]; exact fun hcon => Bool.noConfusion hcon), if_neg hA,
        if_neg hAAAA]

/-- The concrete input of claim C4 (enabled, no addresses, failover set). -/
def c4record : DNSRecord :=
  { name := "x.gslb.elchi", rtype := "A", ttl := 30, ips := [],
    enabled := true, failover := "y.gslb.elchi" }

/-- The same input disabled: what the claim says `c4record` should behave
like. -/
def c4recordDisabled : DNSRecord :=
  { name := "x.gslb.elchi", rtype := "A", ttl := 30, ips := [],
    enabled := false, failover := "y.gslb.elchi" }

/-- Claim C4, witness: the concrete failing input from the claim, next to
the disabled-record CNAME the claim says it should equal. -/
theorem claimC4_witness :
    (∃ e, buildDNSRecords c4record 300 = .error e)
    ∧ buildDNSRecords c4recordDisabled 300
      = .ok [{ name := "x.gslb.elchi.", rrtype := 5, rrclass := 1, ttl := 30,
               rdata := .cname "y.gslb.elchi." }] :=
  ⟨claimC4_build_enabled_emptyIPs_failover_errors c4record 300 rfl rfl (by decide),
   by decide⟩


/-- Claim C1: a sync tick whose backend call fails leaves the cache mapping
and the version tag exactly as they were — every domain remains queryable
with identical records — and sets the sync status to `"failed"` with a
non-empty error string.  The two oracle arguments cover both backend calls
(`FetchSnapshot` when no snapshot is loaded yet, `CheckChanges` otherwise);
the errors produced by the HTTP client are never empty strings. -/
theorem claimC1_failed_sync_preserves_cache (e : ElchiState) (defaultTTL now : Nat)
    (fetchErr chgErr : String) (h1 : fetchErr ≠ "") (h2 : chgErr ≠ "") :
    (performSync e defaultTTL now (.error fetchErr) (.error chgErr)).cache = e.cache
    ∧ (∀ qname qtype,
        (performSync e defaultTTL now (.error fetchErr) (.error chgErr)).cache.Get
            qname qtype
          = e.cache.Get qname qtype)
    ∧ (performSync e defaultTTL now (.error fetchErr) (.error chgErr)).cache.GetVersionHash
        = e.cache.GetVersionHash
    ∧ (performSync e defaultTTL now (.error fetchErr) (.error chgErr)).syncStatus.lastSyncStatus
        = "failed"
    ∧ (performSync e defaultTTL now (.error fetchErr) (.error chgErr)).syncStatus.lastError
        ≠ "" := by
  have hcache : (performSync e defaultTTL now (.error fetchErr) (.error chgErr)).cache
      = e.cache := by
    by_cases hv : e.cache.GetVersionHash = "" <;> simp [performSync, hv]
  have hstatus :
      (performSync e defaultTTL now (.error fetchErr) (.error chgErr)).syncStatus.lastSyncStatus
        = "failed" := by
    by_cases hv : e.cache.GetVersionHash = "" <;>
      simp [performSync, hv, SyncStatus.update]
  have herr :
      (performSync e defaultTTL now (.error fetchErr) (.error chgErr)).syncStatus.lastError
        ≠ "" := by
    by_cases hv : e.cache.GetVersionHash = ""
    · simpa [performSync, hv, SyncStatus.update, errText] using h1
    · simpa [performSync, hv, SyncStatus.update, errText] using h2
  exact ⟨hcache, fun qname qtype => by rw [hcache], by rw [hcache], hstatus, herr⟩

/-- Initial plugin state for the C1 witness (`InitClient`). -/
def c1State0 : ElchiState :=
  { cache := NewRecordCache "gslb.elchi.",
    syncStatus := { lastSyncTime := 0, lastSyncStatus := "initial", lastError := "" } }

/-- Backend snapshot for the C1 witness. -/
def c1Snapshot : DNSSnapshot :=
  { zone := "gslb.elchi.", versionHash := "v1",
    records := [{ name := "a.gslb.elchi", rtype := "A", ttl := 300,
                  ips := ["1.2.3.4", "1.2.3.5"], enabled := true, failover := "" }] }

/-- State after one successful sync tick from the empty cache. -/
def c1Synced : ElchiState := performSync c1State0 300 1 (.ok c1Snapshot) (.error "unused")

/-- Claim C1, witness: from a state populated by one successful sync
(version tag `"v1"`, one domain with two A records), a tick whose change
check fails with an HTTP-client error leaves the cache and its answers
untouched and marks the status failed with that error text. -/
theorem claimC1_witness :
    c1Synced.cache.GetVersionHash = "v1"
    ∧ (c1Synced.cache.Get "a.gslb.elchi." typeA).length = 2
    ∧ (performSync c1Synced 300 2 (.error "request failed: connection refused")
        (.error "unexpected status code 500: boom")).cache = c1Synced.cache
    ∧ (performSync c1Synced 300 2 (.error "request failed: connection refused")
        (.error "unexpected status code 500: boom")).cache.Get "a.gslb.elchi." typeA
      = c1Synced.cache.Get "a.gslb.elchi." typeA
    ∧ (performSync c1Synced 300 2 (.error "request failed: connection refused")
        (.error "unexpected status code 500: boom")).syncStatus.lastSyncStatus = "failed"
    ∧ (performSync c1Synced 300 2 (.error "request failed: connection refused")
        (.error "unexpected status code 500: boom")).syncStatus.lastError ≠ "" := by
  have h := claimC1_failed_sync_preserves_cache c1Synced 300 2
    "request failed: connection refused" "unexpected status code 500: boom"
    (by decide) (by decide)
  exact ⟨by decide, by decide, h.1, h.2.1 "a.gslb.elchi." typeA, h.2.2.2.1, h.2.2.2.2⟩

/-- Claim C5: a merge update for an existing `(domain, type)` pair replaces
the bucket with the newly built records — the result is exactly the new
record list, never the union with the previous bucket contents. -/
theorem claimC5_merge_replaces_bucket (c : RecordCache) (record : DNSRecord)
    (defaultTTL : Nat) (rr0 : RR) (rest : List RR) (c2 : RecordCache)
    (hz : goHasSuffix (normalizeDomain record.name) c.zone = true
        ∨ normalizeDomain record.name = c.zone)
    (hb : buildDNSRecords record defaultTTL = .ok (rr0 :: rest))
    (hu : c.Update [record] defaultTTL = .ok c2) :
    c2.Get record.name rr0.rrtype = rr0 :: rest := by
  unfold RecordCache.Update at hu
  rw [if_neg (by simp)] at hu
  injection hu with hu2
  subst hu2
  unfold RecordCache.Get
  simp only [List.foldl_cons, List.foldl_nil]
  unfold updateStep
  rw [if_neg (fun hcon => hz.elim hcon.1 hcon.2), hb]
  simp only [alGet_alSet_self]

/-- Cache zone used by the concrete C5 scenario. -/
def c5zone : String := "gslb.elchi."

/-- The pre-existing record of the C5 scenario: two addresses. -/
def c5old : DNSRecord :=
  { name := "d.gslb.elchi", rtype := "A", ttl := 60,
    ips := ["192.168.1.10", "192.168.1.11"], enabled := true, failover := "" }

/-- The pushed record of the C5 scenario: one new address. -/
def c5new : DNSRecord :=
  { name := "d.gslb.elchi", rtype := "A", ttl := 60,
    ips := ["10.9.9.9"], enabled := true, failover := "" }

/-- Cache after loading the two-address record. -/
def c5cache1 : RecordCache :=
  match (NewRecordCache c5zone).Update [c5old] 300 with
  | .ok c => c
  | .error _ => NewRecordCache c5zone

/-- Cache after the one-address merge update. -/
def c5cache2 : RecordCache :=
  match c5cache1.Update [c5new] 300 with
  | .ok c => c
  | .error _ => c5cache1

/-- Claim C5, witness: over an existing two-address bucket for
`(d.gslb.elchi., A)`, a merge with one new address leaves exactly the one
new address. -/
theorem claimC5_witness :
    (c5cache1.Get "d.gslb.elchi" typeA).length = 2
    ∧ c5cache2.Get "d.gslb.elchi" typeA
      = [{ name := "d.gslb.elchi.", rrtype := 1, rrclass := 1, ttl := 60,
           rdata := .a (10, 9, 9, 9) }] := by
  constructor
  · decide
  · exact claimC5_merge_replaces_bucket c5cache1 c5new 300
      { name := "d.gslb.elchi.", rrtype := 1, rrclass := 1, ttl := 60,
        rdata := .a (10, 9, 9, 9) } [] c5cache2
      (by decide) (by decide) (by decide)


/-- Zone of the C2 scenario. -/
def c2zone : String := "gslb.elchi."

/-- The failover record of the C2 scenario (`ips` empty, failover set; the
`enabled` field is the Go zero value `false` of the omitted `enabled` key,
which is what routes the build into the CNAME branch at all). -/
def c2record1 : DNSRecord :=
  { name := "x.gslb.elchi", rtype := "A", ttl := 30, ips := [],
    enabled := false, failover := "y.gslb.elchi" }

/-- The C2 update: same name, one address, failover unchanged, enabled. -/
def c2record2 : DNSRecord :=
  { name := "x.gslb.elchi", rtype := "A", ttl := 30, ips := ["10.0.0.1"],
    enabled := true, failover := "y.gslb.elchi" }

/-- Cache after building `c2record1` into the empty cache. -/
def c2cache1 : RecordCache :=
  match (NewRecordCache c2zone).Update [c2record1] 300 with
  | .ok c => c
  | .error _ => NewRecordCache c2zone

/-- Cache after the subsequent merge update with `c2record2`. -/
def c2cache2 : RecordCache :=
  match c2cache1.Update [c2record2] 300 with
  | .ok c => c
  | .error _ => c2cache1

/-- The indirection record the C2 scenario installs for `x`. -/
def c2cnameRR : RR :=
  { name := "x.gslb.elchi.", rrtype := typeCNAME, rrclass := classINET,
    ttl := 30, rdata := .cname "y.gslb.elchi." }

/-- The address record built by the C2 update. -/
def c2addrRR : RR :=
  { name := "x.gslb.elchi.", rrtype := typeA, rrclass := classINET,
    ttl := 30, rdata := .a (10, 0, 0, 1) }

/-- Claim C2, counterexample: after the merge update sets
`ips = ["10.0.0.1"]`, resolving `(x, A)` still returns the single
indirection record targeting `y` — not the address record: the merge
replaces only the A bucket and leaves the CNAME bucket in place, and
`ServeDNS` gives the CNAME bucket precedence on A queries. -/
theorem claimC2_counterexample :
    resolveQuery c2cache2 "x.gslb.elchi." typeA = .hit [c2cnameRR]
    ∧ resolveQuery c2cache2 "x.gslb.elchi." typeA ≠ .hit [c2addrRR]
    ∧ (∀ rrs, resolveQuery c2cache2 "x.gslb.elchi." typeA = .hit rrs →
        ∀ rr ∈ rrs, rr.rrtype = typeCNAME) := by
  refine ⟨by decide, by decide, ?_⟩
  intro rrs h rr hm
  have h2 : rrs = [c2cnameRR] := by
    have hq : resolveQuery c2cache2 "x.gslb.elchi." typeA = .hit [c2cnameRR] := by decide
    rw [hq] at h
    injection h with h3
    exact h3.symm
  subst h2
  simp only [List.mem_singleton] at hm
  subst hm
  decide

/-- Claim C2, amended: building `{name: x, type: A, ips: [], failover: y}`
into the empty cache makes `(x, A)` resolve to the single indirection
record targeting `y` (as claimed).  After the merge update with
`ips = ["10.0.0.1"]` and failover unchanged, the A bucket holds exactly the
address record for `10.0.0.1`, but resolving `(x, A)` still returns the
indirection record: the merge does not remove the existing indirection
bucket, and indirection takes precedence over addresses on A queries. -/
theorem claimC2_amended :
    resolveQuery c2cache1 "x.gslb.elchi." typeA = .hit [c2cnameRR]
    ∧ resolveQuery c2cache2 "x.gslb.elchi." typeA = .hit [c2cnameRR]
    ∧ c2cache2.Get "x.gslb.elchi." typeA = [c2addrRR]
    ∧ c2cache2.Get "x.gslb.elchi." typeCNAME = [c2cnameRR] := by
  refine ⟨by decide, by decide, by decide, by decide⟩


/-- Any entry a `ReplaceFromSnapshot` loop step adds is keyed by a domain
inside the zone. -/
theorem mem_snapshotStep_zone {zone : String} {ttl : Nat} {acc : DomainMap}
    {r : DNSRecord} {p : String × QtypeMap}
    (h : p ∈ snapshotStep zone ttl acc r) :
    p ∈ acc ∨ goHasSuffix p.1 zone = true ∨ p.1 = zone := by
  simp only [snapshotStep] at h
  split at h
  · exact Or.inl h
  · rename_i hg
    split at h
    · exact Or.inl h
    · split at h
      · exact Or.inl h
      · rcases mem_alSet h with h2 | h2
        · right
          rw [h2]
          by_cases h1 : goHasSuffix (normalizeDomain r.name) zone = true
          · exact Or.inl h1
          · refine Or.inr ?_
            by_contra h2b
            exact hg ⟨h1, h2b⟩
        · exact Or.inl h2

/-- Any entry an `Update` loop step adds is keyed by a domain inside the
zone. -/
theorem mem_updateStep_zone {zone : String} {ttl : Nat} {acc : DomainMap}
    {r : DNSRecord} {p : String × QtypeMap}
    (h : p ∈ updateStep zone ttl acc r) :
    p ∈ acc ∨ goHasSuffix p.1 zone = true ∨ p.1 = zone := by
  simp only [updateStep] at h
  split at h
  · exact Or.inl h
  · rename_i hg
    split at h
    · exact Or.inl h
    · split at h
      · exact Or.inl h
      · rcases mem_alSet h with h2 | h2
        · right
          rw [h2]
          by_cases h1 : goHasSuffix (normalizeDomain r.name) zone = true
          · exact Or.inl h1
          · refine Or.inr ?_
            by_contra h2b
            exact hg ⟨h1, h2b⟩
        · exact Or.inl h2

theorem foldl_snapshotStep_zone {zone : String} {ttl : Nat}
    (records : List DNSRecord) (init : DomainMap)
    (hinit : ∀ p ∈ init, goHasSuffix p.1 zone = true ∨ p.1 = zone) :
    ∀ p ∈ records.foldl (snapshotStep zone ttl) init,
      goHasSuffix p.1 zone = true ∨ p.1 = zone := by
  induction records generalizing init with
  | nil => exact hinit
  | cons r rest ih =>
    intro p hp
    refine ih _ (fun q hq => ?_) p hp
    rcases mem_snapshotStep_zone hq with h1 | h1
    · exact hinit q h1
    · exact h1

theorem foldl_updateStep_zone {zone : String} {ttl : Nat}
    (records : List DNSRecord) (init : DomainMap)
    (hinit : ∀ p ∈ init, goHasSuffix p.1 zone = true ∨ p.1 = zone) :
    ∀ p ∈ records.foldl (updateStep zone ttl) init,
      goHasSuffix p.1 zone = true ∨ p.1 = zone := by
  induction records generalizing init with
  | nil => exact hinit
  | cons r rest ih =>
    intro p hp
    refine ih _ (fun q hq => ?_) p hp
    rcases mem_updateStep_zone hq with h1 | h1
    · exact hinit q h1
    · exact h1

/-- Claim C7: after `ReplaceFromSnapshot` every domain key of the cache is
inside the configured zone (suffix of / equal to the zone); the call
returns no error for any non-nil snapshot, and an out-of-zone snapshot
record is excluded: its domain has no entry in the resulting map.  A merge
`Update` preserves the zone containment invariant. -/
theorem claimC7_zone_containment (c : RecordCache) (snap : DNSSnapshot)
    (records2 : List DNSRecord) (defaultTTL : Nat) (c3 : RecordCache)
    (hinv : ∀ p ∈ c.records, goHasSuffix p.1 c.zone = true ∨ p.1 = c.zone)
    (hupd : c.Update records2 defaultTTL = .ok c3) :
    (∃ c2, c.ReplaceFromSnapshot (some snap) defaultTTL = .ok c2
      ∧ (∀ p ∈ c2.records, goHasSuffix p.1 c.zone = true ∨ p.1 = c.zone)
      ∧ (∀ domain, goHasSuffix domain c.zone = false → domain ≠ c.zone →
          alGet c2.records domain = none))
    ∧ (∀ p ∈ c3.records, goHasSuffix p.1 c.zone = true ∨ p.1 = c.zone) := by
  constructor
  · refine ⟨_, rfl, ?_, ?_⟩
    · intro p hp
      exact foldl_snapshotStep_zone snap.records [] (by intro q hq; cases hq) p hp
    · intro domain hns hne
      cases hg : alGet (snap.records.foldl (snapshotStep c.zone defaultTTL) []) domain with
      | none => rfl
      | some qmap =>
        have hmem := alGet_mem hg
        rcases foldl_snapshotStep_zone snap.records [] (by intro q hq; cases hq)
            _ hmem with h1 | h1
        · rw [hns] at h1; cases h1
        · exact absurd h1 hne
  · intro p hp
    unfold RecordCache.Update at hupd
    by_cases hr : records2 = []
    · rw [if_pos hr] at hupd
      injection hupd with h2
      subst h2
      exact hinv p hp
    · rw [if_neg hr] at hupd
      injection hupd with h2
      subst h2
      exact foldl_updateStep_zone records2 c.records hinv p hp

/-- Snapshot for the C7 witness: one in-zone record and one out-of-zone
record. -/
def c7snap : DNSSnapshot :=
  { zone := "gslb.elchi.", versionHash := "v1",
    records := [{ name := "in.gslb.elchi", rtype := "A", ttl := 300,
                  ips := ["1.2.3.4"], enabled := true, failover := "" },
                { name := "out.other.zone", rtype := "A", ttl := 300,
                  ips := ["5.6.7.8"], enabled := true, failover := "" }] }

/-- Push batch for the C7 witness. -/
def c7update : List DNSRecord :=
  [{ name := "in2.gslb.elchi", rtype := "A", ttl := 300,
     ips := ["9.9.9.9"], enabled := true, failover := "" },
   { name := "out2.other.zone", rtype := "A", ttl := 300,
     ips := ["9.9.9.8"], enabled := true, failover := "" }]

/-- Cache produced by the C7 snapshot replace on the empty cache. -/
def c7cache2 : RecordCache :=
  match (NewRecordCache "gslb.elchi.").ReplaceFromSnapshot (some c7snap) 300 with
  | .ok c => c
  | .error _ => NewRecordCache "gslb.elchi."

/-- Cache produced by the C7 merge update on the empty cache. -/
def c7cache3 : RecordCache :=
  match (NewRecordCache "gslb.elchi.").Update c7update 300 with
  | .ok c => c
  | .error _ => NewRecordCache "gslb.elchi."

/-- Claim C7, witness: the containment theorem applied to the concrete
snapshot and push batch; the out-of-zone snapshot record is absent from the
result while the in-zone record is present. -/
theorem claimC7_witness :
    (∃ c2, (NewRecordCache "gslb.elchi.").ReplaceFromSnapshot (some c7snap) 300 = .ok c2
      ∧ (∀ p ∈ c2.records, goHasSuffix p.1 "gslb.elchi." = true ∨ p.1 = "gslb.elchi.")
      ∧ (∀ domain, goHasSuffix domain "gslb.elchi." = false → domain ≠ "gslb.elchi." →
          alGet c2.records domain = none))
    ∧ (∀ p ∈ c7cache3.records,
        goHasSuffix p.1 "gslb.elchi." = true ∨ p.1 = "gslb.elchi.")
    ∧ alGet c7cache2.records "out.other.zone." = none
    ∧ (c7cache2.Get "in.gslb.elchi" typeA).length = 1 := by
  have h := claimC7_zone_containment (NewRecordCache "gslb.elchi.") c7snap c7update 300
    c7cache3 (by intro p hp; cases hp) (by decide)
  exact ⟨h.1, h.2, by decide, by decide⟩


/-- The records stored for a `(domain, qtype)` pair of the cache map. -/
def bucketOf (m : DomainMap) (domain : String) (qt : Nat) : Option (List RR) :=
  (alGet m domain).bind fun q => alGet q qt

/-- Decidable check that the `(name, type)` pair of a deletion request has
no bucket in the map (unparsable types count as missing). -/
def pairMissingB (m : DomainMap) (d : DeleteRecord) : Bool :=
  match parseDeleteType d.rtype with
  | none => true
  | some qt => bucketOf m (normalizeDomain d.name) qt = none

/-- A delete step removes the bucket it names. -/
theorem deleteStep_removes (m : DomainMap) (d : DeleteRecord) (qt : Nat)
    (hp : parseDeleteType d.rtype = some qt) :
    bucketOf (deleteStep m d) (normalizeDomain d.name) qt = none := by
  simp only [deleteStep, hp]
  split
  · rename_i hg
    simp [bucketOf, hg]
  · rename_i qmap hg
    split
    · simp [bucketOf, alGet_alDel_self]
    · simp [bucketOf, alGet_alSet_self, alGet_alDel_self]

/-- A delete step never creates a bucket: a missing pair stays missing. -/
theorem deleteStep_preserves_none (m : DomainMap) (d : DeleteRecord)
    (dom : String) (qt : Nat) (h : bucketOf m dom qt = none) :
    bucketOf (deleteStep m d) dom qt = none := by
  simp only [deleteStep]
  split
  · exact h
  · rename_i qt2 hparse
    split
    · exact h
    · rename_i qmap hg
      split
      · by_cases hdom : dom = normalizeDomain d.name
        · subst hdom
          simp [bucketOf, alGet_alDel_self]
        · simp only [bucketOf, alGet_alDel_ne _ _ _ hdom]
          exact h
      · by_cases hdom : dom = normalizeDomain d.name
        · subst hdom
          simp only [bucketOf, hg, Option.some_bind] at h
          by_cases hqt : qt = qt2
          · subst hqt
            simp [bucketOf, alGet_alSet_self, alGet_alDel_self]
          · simp only [bucketOf, alGet_alSet_self, Option.some_bind]
            rw [alGet_alDel_ne _ _ _ hqt]
            exact h
        · simp only [bucketOf, alGet_alSet_ne _ _ _ _ hdom]
          exact h

theorem foldl_deleteStep_preserves_none (dels : List DeleteRecord) (m : DomainMap)
    (dom : String) (qt : Nat) (h : bucketOf m dom qt = none) :
    bucketOf (dels.foldl deleteStep m) dom qt = none := by
  induction dels generalizing m with
  | nil => exact h
  | cons d rest ih => exact ih _ (deleteStep_preserves_none m d dom qt h)

/-- After the whole deletion loop, every named (and parseable) pair is
gone. -/
theorem foldl_deleteStep_removes (dels : List DeleteRecord) (m : DomainMap) :
    ∀ d ∈ dels, ∀ qt, parseDeleteType d.rtype = some qt →
      bucketOf (dels.foldl deleteStep m) (normalizeDomain d.name) qt = none := by
  induction dels generalizing m with
  | nil => intro d hd; cases hd
  | cons d0 rest ih =>
    intro d hd qt hp
    rcases List.mem_cons.mp hd with h1 | h1
    · subst h1
      exact foldl_deleteStep_preserves_none rest (deleteStep m d) _ qt
        (deleteStep_removes m d qt hp)
    · exact ih (deleteStep m d0) d h1 qt hp

/-- A delete step keeps the "no empty bucket maps" invariant: it removes a
domain entry entirely once its last type bucket is deleted. -/
theorem deleteStep_noEmpty (m : DomainMap) (d : DeleteRecord)
    (hinv : ∀ p ∈ m, p.2 ≠ []) : ∀ p ∈ deleteStep m d, p.2 ≠ [] := by
  intro p hp
  simp only [deleteStep] at hp
  split at hp
  · exact hinv p hp
  · split at hp
    · exact hinv p hp
    · split at hp
      · exact hinv p (mem_alDel hp)
      · rename_i hq
        rcases mem_alSet hp with h1 | h1
        · rw [h1]
          exact hq
        · exact hinv p h1

theorem foldl_deleteStep_noEmpty (dels : List DeleteRecord) (m : DomainMap)
    (hinv : ∀ p ∈ m, p.2 ≠ []) : ∀ p ∈ dels.foldl deleteStep m, p.2 ≠ [] := by
  induction dels generalizing m with
  | nil => exact hinv
  | cons d rest ih => exact ih _ (deleteStep_noEmpty m d hinv)

/-- Deleting a pair that does not exist is a step-level no-op (given no
domain holds an empty bucket map, which every reachable cache satisfies). -/
theorem deleteStep_noop (m : DomainMap) (d : DeleteRecord)
    (hinv : ∀ p ∈ m, p.2 ≠ []) (hmiss : pairMissingB m d = true) :
    deleteStep m d = m := by
  simp only [deleteStep]
  split
  · rfl
  · rename_i qt hparse
    split
    · rfl
    · rename_i qmap hg
      simp only [pairMissingB, hparse, bucketOf, hg, Option.some_bind,
        decide_eq_true_eq] at hmiss
      split
      · rename_i hq
        rw [alDel_of_get_none qmap qt hmiss] at hq
        exact absurd hq (hinv _ (alGet_mem hg))
      · rw [alDel_of_get_none qmap qt hmiss]
        exact alSet_of_get_self m _ qmap hg

theorem foldl_deleteStep_noop (dels : List DeleteRecord) (m : DomainMap)
    (hinv : ∀ p ∈ m, p.2 ≠ [])
    (hmiss : ∀ d ∈ dels, pairMissingB m d = true) :
    dels.foldl deleteStep m = m := by
  induction dels with
  | nil => rfl
  | cons d rest ih =>
    rw [List.foldl_cons, deleteStep_noop m d hinv (hmiss d (List.mem_cons_self _ _))]
    exact ih fun d2 h2 => hmiss d2 (List.mem_cons_of_mem _ h2)

/-- Claim C6: `Delete` removes each named `(domain, type)` bucket, removes a
domain entry entirely once it has no remaining type buckets (no domain of
the result maps to an empty bucket map), returns no error, and is a no-op
on pairs that do not exist: if every named pair is missing, the map is
returned exactly unchanged.  The hypothesis — no domain holds an empty
bucket map — holds for every cache the code can build, since buckets are
only created non-empty. -/
theorem claimC6_delete_spec (c : RecordCache) (dels : List DeleteRecord)
    (hinv : ∀ p ∈ c.records, p.2 ≠ []) :
    ∃ c2, c.Delete dels = .ok c2
      ∧ (∀ d ∈ dels, ∀ qt, parseDeleteType d.rtype = some qt →
          bucketOf c2.records (normalizeDomain d.name) qt = none)
      ∧ (∀ p ∈ c2.records, p.2 ≠ [])
      ∧ ((∀ d ∈ dels, pairMissingB c.records d = true) → c2.records = c.records) := by
  unfold RecordCache.Delete
  by_cases hd : dels = []
  · rw [if_pos hd]
    subst hd
    exact ⟨c, rfl, fun d hd2 => absurd hd2 (List.not_mem_nil d), hinv, fun _ => rfl⟩
  · rw [if_neg hd]
    refine ⟨_, rfl, ?_, ?_, ?_⟩
    · exact foldl_deleteStep_removes dels c.records
    · exact foldl_deleteStep_noEmpty dels c.records hinv
    · exact foldl_deleteStep_noop dels c.records hinv

/-- `alSet` never returns the empty list. -/
theorem alSet_ne_nil {K V : Type} [DecidableEq K] (l : List (K × V)) (k : K) (v : V) :
    alSet l k v ≠ [] := by
  cases l with
  | nil => simp [alSet]
  | cons p rest =>
    unfold alSet
    split <;> simp

/-- The snapshot loop only creates non-empty bucket maps: the hypothesis of
the C6 theorem holds for every cache built by `ReplaceFromSnapshot`. -/
theorem snapshotStep_noEmpty (zone : String) (ttl : Nat) (acc : DomainMap)
    (r : DNSRecord) (hinv : ∀ p ∈ acc, p.2 ≠ []) :
    ∀ p ∈ snapshotStep zone ttl acc r, p.2 ≠ [] := by
  intro p hp
  simp only [snapshotStep] at hp
  split at hp
  · exact hinv p hp
  · split at hp
    · exact hinv p hp
    · split at hp
      · exact hinv p hp
      · rcases mem_alSet hp with h1 | h1
        · rw [h1]
          exact alSet_ne_nil _ _ _
        · exact hinv p h1

/-- The merge loop only creates non-empty bucket maps: the hypothesis of
the C6 theorem is preserved by `Update`. -/
theorem updateStep_noEmpty (zone : String) (ttl : Nat) (acc : DomainMap)
    (r : DNSRecord) (hinv : ∀ p ∈ acc, p.2 ≠ []) :
    ∀ p ∈ updateStep zone ttl acc r, p.2 ≠ [] := by
  intro p hp
  simp only [updateStep] at hp
  split at hp
  · exact hinv p hp
  · split at hp
    · exact hinv p hp
    · split at hp
      · exact hinv p hp
      · rcases mem_alSet hp with h1 | h1
        · rw [h1]
          exact alSet_ne_nil _ _ _
        · exact hinv p h1

/-- Cache for the C6 witness: two domains, one A bucket each. -/
def c6cache : RecordCache :=
  match (NewRecordCache "gslb.elchi.").Update
      [{ name := "a.gslb.elchi", rtype := "A", ttl := 60,
         ips := ["1.1.1.1"], enabled := true, failover := "" },
       { name := "b.gslb.elchi", rtype := "A", ttl := 60,
         ips := ["2.2.2.2"], enabled := true, failover := "" }] 300 with
  | .ok c => c
  | .error _ => NewRecordCache "gslb.elchi."

/-- C6 witness deletions: an existing pair, a missing type for an existing
domain, and a missing domain. -/
def c6dels : List DeleteRecord :=
  [{ name := "a.gslb.elchi", rtype := "A" },
   { name := "b.gslb.elchi", rtype := "AAAA" },
   { name := "zz.gslb.elchi", rtype := "A" }]

/-- C6 witness deletions consisting only of missing pairs. -/
def c6delsMissing : List DeleteRecord :=
  [{ name := "b.gslb.elchi", rtype := "AAAA" },
   { name := "zz.gslb.elchi", rtype := "A" }]

/-- Claim C6, witness: on the concrete cache, the mixed deletion batch
removes the named A bucket, returns no error, and leaves no empty bucket
maps; the all-missing batch returns the map exactly unchanged. -/
theorem claimC6_witness :
    (∃ c2, c6cache.Delete c6dels = .ok c2
      ∧ bucketOf c2.records "a.gslb.elchi." typeA = none
      ∧ (∀ p ∈ c2.records, p.2 ≠ []))
    ∧ (∃ c3, c6cache.Delete c6delsMissing = .ok c3 ∧ c3.records = c6cache.records) := by
  constructor
  · obtain ⟨c2, h1, h2, h3, -⟩ := claimC6_delete_spec c6cache c6dels (by decide)
    refine ⟨c2, h1, ?_, h3⟩
    have h4 := h2 { name := "a.gslb.elchi", rtype := "A" } (by decide) typeA (by decide)
    rwa [show normalizeDomain "a.gslb.elchi" = "a.gslb.elchi." from by decide] at h4
  · obtain ⟨c3, h1, -, -, h4⟩ := claimC6_delete_spec c6cache c6delsMissing (by decide)
    exact ⟨c3, h1, h4 (by decide)⟩

end ElchiGslb
